import Mathlib

/-!
Verification development for the `/parse` endpoint of the python-parser-service
repository (`src/main.py`).  The selector-evaluation core of `parse_url`
(lines 150-230) is embedded shallowly: the per-request parse-tree cache, the
three selector backends (CSS via BeautifulSoup, XPath via lxml, Regex via
`re.finditer`), the result normalizer and the batch loop are translated into
executable Lean definitions.  The external libraries (BeautifulSoup, lxml,
`re`) are modelled at their interface: a document is an HTML node tree, the
query functions (`soup.select`, `tree.xpath`, `re.finditer`) are supplied as
data, and the per-node extraction primitives (`get_text(strip=True)`,
`text_content()`, serialization) are defined on the node tree following the
libraries' documented semantics.
-/

namespace ParserService

/-- Model of Python `str.strip()` on a character list: drop whitespace from
both ends. -/
def stripChars (cs : List Char) : List Char :=
  (((cs.dropWhile Char.isWhitespace).reverse).dropWhile Char.isWhitespace).reverse

/-- Model of Python `str.strip()`: remove leading and trailing whitespace. -/
def pstrip (s : String) : String :=
  ⟨stripChars s.data⟩

/- An HTML document fragment: a text node or an element with a tag name,
attributes and children.  `NodeList` is used for the children to keep all
recursion structural. -/
mutual
inductive HtmlNode where
  | text (s : String)
  | elem (tag : String) (attrs : List (String × String)) (children : NodeList)
inductive NodeList where
  | nil
  | cons (head : HtmlNode) (tail : NodeList)
end

/-- `true` exactly on element nodes (bs4 `Tag` / lxml `HtmlElement`). -/
def HtmlNode.isElem : HtmlNode → Bool
  | .text _ => false
  | .elem _ _ _ => true

/-- Serialization of an attribute list as ` key="value"` pairs. -/
def serializeAttrs : List (String × String) → String
  | [] => ""
  | (k, v) :: rest => " " ++ k ++ "=\x22" ++ v ++ "\x22" ++ serializeAttrs rest

/- Serialization of a node back to markup.  Models both bs4 `str(element)`
and lxml `tostring(element, encoding='unicode')` for ordinary (non-void,
non-escaped) elements. -/
mutual
def serializeNode : HtmlNode → String
  | .text s => s
  | .elem tag attrs children =>
      "<" ++ tag ++ serializeAttrs attrs ++ ">" ++ serializeList children
        ++ "</" ++ tag ++ ">"
def serializeList : NodeList → String
  | .nil => ""
  | .cons n rest => serializeNode n ++ serializeList rest
end

/- Model of lxml `element.text_content()`: the concatenation of all text in
the subtree, in document order, with no added separators and no stripping. -/
mutual
def textContentNode : HtmlNode → String
  | .text s => s
  | .elem _ _ children => textContentList children
def textContentList : NodeList → String
  | .nil => ""
  | .cons n rest => textContentNode n ++ textContentList rest
end

/- Model of bs4 `_all_strings(strip=True)`: each text node stripped, empty
strings skipped, in document order. -/
mutual
def strippedStringsNode : HtmlNode → List String
  | .text s => if pstrip s = "" then [] else [pstrip s]
  | .elem _ _ children => strippedStringsList children
def strippedStringsList : NodeList → List String
  | .nil => []
  | .cons n rest => strippedStringsNode n ++ strippedStringsList rest
end

/-- Model of bs4 `element.get_text(strip=True)`: the stripped text pieces
joined with the empty separator. -/
def get_text_strip (n : HtmlNode) : String :=
  String.join (strippedStringsNode n)

/-- One item of an lxml `xpath()` result sequence: an `HtmlElement`, a plain
string (text/attribute node), or any other value already coerced by
`str(element)`. -/
inductive XpathItem where
  | elem (node : HtmlNode)
  | str (s : String)
  | other (s : String)

/-- One match object yielded by `re.finditer`.  `group1 = none` models a
pattern with no group 1 (`match.group(1)` raises `IndexError`);
`group1 = some none` models a group 1 that did not participate in the match
(`match.group(1)` is `None`). -/
structure RegexMatch where
  group0 : String
  group1 : Option (Option String)

/-- `SelectorType` enum of `main.py`. -/
inductive SelectorType where
  | CSS
  | XPATH
  | REGEX
deriving DecidableEq

/-- `SelectorDefinition` model of `main.py`: type, value, `get_all`
(default false), optional `text_only` override. -/
structure SelectorDefinition where
  type : SelectorType
  value : String
  get_all : Bool
  text_only : Option Bool

/-- `ParseOptions` model of `main.py` (defaults `text_only=True`,
`follow_redirects=True`). -/
structure ParseOptions where
  text_only : Bool
  follow_redirects : Bool

/-- The CSS backend handle: `soup.select` for the document, returning the
matched element sequence or raising (bad CSS syntax). -/
abbrev CssSoup := String → Except String (List HtmlNode)

/-- The XPath backend handle: `html_tree.xpath` for the document, returning
the result sequence or raising (bad XPath expression). -/
abbrev XpathTree := String → Except String (List XpathItem)

/-- The per-request document environment: `BeautifulSoup(html_text, 'lxml')`
and `lxml.html.fromstring(content_bytes)` as fallible constructions, and
`re.finditer(pattern, html_text)` over the decoded text (its matches are the
non-overlapping matches of the pattern, in order; a bad pattern raises). -/
structure Env where
  buildSoup : Except String CssSoup
  buildTree : Except String XpathTree
  finditer : String → Except String (List RegexMatch)

/-- The mutable loop state of `parse_url`: the lazily built `soup` and
`html_tree` variables, plus construction-count instrumentation for the
memoization claim. -/
structure LoopState where
  soup : Option CssSoup
  html_tree : Option XpathTree
  cssBuilds : Nat
  xpathBuilds : Nat

/-- State at loop entry: `soup = None`, `html_tree = None`. -/
def initState : LoopState :=
  { soup := none, html_tree := none, cssBuilds := 0, xpathBuilds := 0 }

/-- `if soup is None: soup = BeautifulSoup(html_text, 'lxml')` — lazily
build and memoize the CSS tree; a construction failure leaves `soup` unset. -/
def getSoup (env : Env) (st : LoopState) : LoopState × Except String CssSoup :=
  match st.soup with
  | some soup => (st, .ok soup)
  | none =>
      match env.buildSoup with
      | .error e => (st, .error e)
      | .ok soup =>
          ({ st with soup := some soup, cssBuilds := st.cssBuilds + 1 }, .ok soup)

/-- `if html_tree is None: html_tree = lxml.html.fromstring(content_bytes)` —
lazily build and memoize the XPath tree. -/
def getHtmlTree (env : Env) (st : LoopState) : LoopState × Except String XpathTree :=
  match st.html_tree with
  | some tree => (st, .ok tree)
  | none =>
      match env.buildTree with
      | .error e => (st, .error e)
      | .ok tree =>
          ({ st with html_tree := some tree, xpathBuilds := st.xpathBuilds + 1 }, .ok tree)

/-- The body of the CSS per-element branch: with `effective_text_only`, the
stripped text, dropped when empty; otherwise `str(element)`, always kept. -/
def cssExtractOne (eto : Bool) (element : HtmlNode) : Option String :=
  if eto then
    let text := get_text_strip element
    if text = "" then none else some text
  else
    some (serializeNode element)

/-- The CSS collection loop of `parse_url` (lines 173-179), over the selected
prefix of the element list. -/
def cssCollect (eto : Bool) : List HtmlNode → List String
  | [] => []
  | element :: rest =>
      if eto then
        let text := get_text_strip element
        if text = "" then cssCollect eto rest else text :: cssCollect eto rest
      else
        serializeNode element :: cssCollect eto rest

/-- The CSS branch (lines 170-179): `if elements:` then
`limit = len(elements) if get_all else 1` and the loop over
`elements[0:limit]`. -/
def cssResults (eto get_all : Bool) (elements : List HtmlNode) : List String :=
  if elements.isEmpty then []
  else cssCollect eto (elements.take (if get_all then elements.length else 1))

/-- The body of the XPath per-item branch (lines 188-200): elements yield
stripped `text_content()` (dropped when empty) or stripped serialization
(always kept); strings and other values are stripped and kept when
non-empty.  `some` results increment `count`. -/
def xpathExtract (eto : Bool) : XpathItem → Option String
  | .elem element =>
      if eto then
        let text := pstrip (textContentNode element)
        if text = "" then none else some text
      else
        some (pstrip (serializeNode element))
  | .str s =>
      let cleaned := pstrip s
      if cleaned = "" then none else some cleaned
  | .other s =>
      let cleaned := pstrip s
      if cleaned = "" then none else some cleaned

/-- The XPath collection loop (lines 185-200): iterate the whole result
sequence, break once `count >= limit`, and count only the kept items. -/
def xpathLoop (eto : Bool) (limit : Nat) : List XpathItem → Nat → List String
  | [], _ => []
  | element :: rest, count =>
      if limit ≤ count then []
      else
        match xpathExtract eto element with
        | some s => s :: xpathLoop eto limit rest (count + 1)
        | none => xpathLoop eto limit rest count

/-- The XPath branch (lines 182-200): `if elements:` then
`limit = len(elements) if get_all else 1`, `count = 0`, loop. -/
def xpathResults (eto get_all : Bool) (elements : List XpathItem) : List String :=
  if elements.isEmpty then []
  else xpathLoop eto (if get_all then elements.length else 1) elements 0

/-- `try: extracted = match.group(1) except IndexError: extracted =
match.group(0)` (lines 205-206). -/
def regexExtracted (m : RegexMatch) : Option String :=
  match m.group1 with
  | none => some m.group0
  | some g => g

/-- The regex collection loop (lines 202-209): break when `get_all` is false
and a match was already kept; strip each extracted string and keep (and
count) it only when non-empty. -/
def regexLoop (get_all : Bool) : List RegexMatch → Nat → List String
  | [], _ => []
  | m :: rest, matches_found =>
      if ¬get_all ∧ 1 ≤ matches_found then []
      else
        match regexExtracted m with
        | some extracted =>
            let cleaned := pstrip extracted
            if cleaned = "" then regexLoop get_all rest matches_found
            else cleaned :: regexLoop get_all rest (matches_found + 1)
        | none => regexLoop get_all rest matches_found

/-- The regex branch (lines 201-209): run the loop from `matches_found = 0`. -/
def regexResults (get_all : Bool) (ms : List RegexMatch) : List String :=
  regexLoop get_all ms 0

/-- The raw per-selector evaluation: the body of the inner `try` of
`parse_url` (lines 167-209).  Returns the updated cache state and either the
extracted strings or the caught exception text.  Note that a tree memoized
before the failing step stays memoized. -/
def evalRaw (env : Env) (st : LoopState) (d : SelectorDefinition) (eto : Bool) :
    LoopState × Except String (List String) :=
  match d.type with
  | .CSS =>
      let r := getSoup env st
      match r.2 with
      | .error e => (r.1, .error e)
      | .ok soup =>
          match soup d.value with
          | .error e => (r.1, .error e)
          | .ok elements => (r.1, .ok (cssResults eto d.get_all elements))
  | .XPATH =>
      let r := getHtmlTree env st
      match r.2 with
      | .error e => (r.1, .error e)
      | .ok tree =>
          match tree d.value with
          | .error e => (r.1, .error e)
          | .ok elements => (r.1, .ok (xpathResults eto d.get_all elements))
  | .REGEX =>
      match env.finditer d.value with
      | .error e => (st, .error e)
      | .ok ms => (st, .ok (regexResults d.get_all ms))

/-- The caught-exception message of line 212: `f"Ошибка обработки: {e}"`. -/
def errMsg (e : String) : String :=
  "Ошибка обработки: " ++ e

/-- Lines 210-212: a caught exception replaces `results` with the
one-element error list. -/
def resultsOf : Except String (List String) → List String
  | .ok rs => rs
  | .error e => [errMsg e]

/-- A non-null value of the result mapping: `str` or `List[str]`. -/
inductive Value where
  | scalar (s : String)
  | list (l : List String)
deriving DecidableEq

/-- The result normalizer (lines 213-215): empty goes to `None`, a singleton
with `get_all` false and a non-regex selector unwraps to the scalar, anything
else keeps the list. -/
def normalize (get_all : Bool) (stype : SelectorType) (results : List String) :
    Option Value :=
  if results = [] then none
  else if results.length = 1 ∧ get_all = false ∧ stype ≠ SelectorType.REGEX then
    some (Value.scalar (results.headD ""))
  else some (Value.list results)

/-- Line 165: the per-selector `text_only` override falls back to the batch
option. -/
def effectiveTextOnly (d : SelectorDefinition) (default_text_only : Bool) : Bool :=
  match d.text_only with
  | some b => b
  | none => default_text_only

/-- One iteration of the selector loop: evaluate, convert a caught exception
to the error list, normalize. -/
def processSelector (env : Env) (default_text_only : Bool) (st : LoopState)
    (d : SelectorDefinition) : LoopState × Option Value :=
  let r := evalRaw env st d (effectiveTextOnly d default_text_only)
  (r.1, normalize d.get_all d.type (resultsOf r.2))

/-- The selector loop of `parse_url` from a given cache state, over the
selector map in its insertion order. -/
def runBatchFrom (env : Env) (default_text_only : Bool) :
    LoopState → List (String × SelectorDefinition) →
    LoopState × List (String × Option Value)
  | st, [] => (st, [])
  | st, kd :: rest =>
      let r := processSelector env default_text_only st kd.2
      let tail := runBatchFrom env default_text_only r.1 rest
      (tail.1, (kd.1, r.2) :: tail.2)

/-- The whole selector loop, from the fresh state (`soup = None`,
`html_tree = None`). -/
def runBatch (env : Env) (default_text_only : Bool)
    (selectors : List (String × SelectorDefinition)) :
    LoopState × List (String × Option Value) :=
  runBatchFrom env default_text_only initState selectors

/-- Lines 153-154: parse only on 2xx, or on 3xx when redirects were not
followed. -/
def shouldParse (status : Nat) (follow_redirects : Bool) : Bool :=
  (decide (200 ≤ status) && decide (status < 300)) ||
  (!follow_redirects && decide (300 ≤ status) && decide (status < 400))

/-- Lines 152-156: the `parsed_data` mapping, empty unless `should_parse`
holds and the decoded text is non-empty (`if should_parse and html_text:`). -/
def parsePhase (env : Env) (html_text : String) (status : Nat)
    (opts : ParseOptions) (selectors : List (String × SelectorDefinition)) :
    List (String × Option Value) :=
  if shouldParse status opts.follow_redirects = true ∧ html_text ≠ "" then
    (runBatch env opts.text_only selectors).2
  else []

/-- Lines 122-123: `redirect_location` is set from the `Location` header only
when redirects were not followed and the final status is 3xx. -/
def redirectLocationOf (follow_redirects : Bool) (status : Nat)
    (location_header : Option String) : Option String :=
  if follow_redirects = false ∧ 300 ≤ status ∧ status < 400 then location_header
  else none

/-- Lines 126-127: `final_url` is dropped when it equals the requested URL. -/
def finalUrlOf (initial_url actual_final_url : String) : Option String :=
  if actual_final_url = initial_url then none else some actual_final_url

/-- `ParseResponseData` model of `main.py`. -/
structure ParseResponseData where
  status_code : Nat
  redirect_location : Option String
  final_url : Option String
  data : List (String × Option Value)

/-- The response assembly of `parse_url` (lines 121-127 and 224-230), given
the fetch collaborator's outputs. -/
def buildResponse (initial_url : String) (status : Nat) (response_url : String)
    (location_header : Option String) (opts : ParseOptions) (env : Env)
    (html_text : String) (selectors : List (String × SelectorDefinition)) :
    ParseResponseData :=
  { status_code := status
    redirect_location := redirectLocationOf opts.follow_redirects status location_header
    final_url := finalUrlOf initial_url response_url
    data := parsePhase env html_text status opts selectors }

/-- The per-match keep rule of the regex branch, written as the spec states
it: prefer group 1, fall back to the whole match, strip, keep only when
non-empty.  Used to compare the code's counting loop against the spec. -/
def regexKeep (m : RegexMatch) : Option String :=
  match regexExtracted m with
  | none => none
  | some s =>
      let cleaned := pstrip s
      if cleaned = "" then none else some cleaned

/-- The all-matches evaluation, written from the spec's words: every match of
the query's result sequence is considered, with no cap.  Used as the
comparison point for the `getAll = true` behaviour of `evalRaw`. -/
def allResults (env : Env) (st : LoopState) (d : SelectorDefinition) (eto : Bool) :
    LoopState × Except String (List String) :=
  match d.type with
  | .CSS =>
      let r := getSoup env st
      match r.2 with
      | .error e => (r.1, .error e)
      | .ok soup =>
          match soup d.value with
          | .error e => (r.1, .error e)
          | .ok elements => (r.1, .ok (elements.filterMap (cssExtractOne eto)))
  | .XPATH =>
      let r := getHtmlTree env st
      match r.2 with
      | .error e => (r.1, .error e)
      | .ok tree =>
          match tree d.value with
          | .error e => (r.1, .error e)
          | .ok elements => (r.1, .ok (elements.filterMap (xpathExtract eto)))
  | .REGEX =>
      match env.finditer d.value with
      | .error e => (st, .error e)
      | .ok ms => (st, .ok (ms.filterMap regexKeep))


/-- The well-formedness of a loop value of the result mapping, per claim C9:
null, a non-empty scalar, or a non-empty list of non-empty strings. -/
def GoodVal : Option Value → Prop
  | none => True
  | some (Value.scalar s) => s ≠ ""
  | some (Value.list l) => l ≠ [] ∧ ∀ s ∈ l, s ≠ ""

/-- Invariant of the lazy cache: each counter is at most one and is zero
while the corresponding tree is unbuilt. -/
def CacheInv (st : LoopState) : Prop :=
  (st.soup = none → st.cssBuilds = 0) ∧ st.cssBuilds ≤ 1 ∧
  (st.html_tree = none → st.xpathBuilds = 0) ∧ st.xpathBuilds ≤ 1

/-- The memoized trees are the ones the environment constructs. -/
def StateOk (env : Env) (st : LoopState) : Prop :=
  (∀ s, st.soup = some s → env.buildSoup = Except.ok s) ∧
  (∀ t, st.html_tree = some t → env.buildTree = Except.ok t)

-- Concrete documents and environments used by counterexamples and witnesses.

/-- The document `<div id="t">Hello <b>World</b></div>` of the spec's
concrete scenario. -/
def docNode : HtmlNode :=
  .elem "div" [("id", "t")]
    (.cons (.text "Hello ") (.cons (.elem "b" [] (.cons (.text "World") .nil)) .nil))

/-- A `soup.select` that answers `#t` with the scenario document. -/
def cssQ6 : CssSoup :=
  fun q => if q = "#t" then .ok [docNode] else .ok []

/-- Environment for the spec's concrete CSS scenario. -/
def envC6 : Env :=
  { buildSoup := .ok cssQ6
    buildTree := .error "unused"
    finditer := fun _ => .error "unused" }

/-- An environment whose parse-tree constructions fail. -/
def envErr : Env :=
  { buildSoup := .error "boom"
    buildTree := .error "boom"
    finditer := fun _ => .ok [] }

/-- An environment with two regex matches and no parse trees. -/
def envReg : Env :=
  { buildSoup := .error "unused"
    buildTree := .error "unused"
    finditer := fun _ => .ok [⟨"a", none⟩, ⟨"b", none⟩] }

/-- A regex selector with `get_all = false`. -/
def dRegF : SelectorDefinition := ⟨.REGEX, "p", false, none⟩

/-- A regex selector with `get_all = true`. -/
def dRegT : SelectorDefinition := ⟨.REGEX, "p", true, none⟩

/-- `<p> </p>`: an element whose text is empty after stripping. -/
def e1 : HtmlNode := .elem "p" [] (.cons (.text " ") .nil)

/-- `<p>x</p>`: an element with non-empty text. -/
def e2 : HtmlNode := .elem "p" [] (.cons (.text "x") .nil)

/-- A `soup.select` matching `[e1, e2]` for every query. -/
def cssQ5 : CssSoup := fun _ => .ok [e1, e2]

/-- An `xpath` matching the same element sequence `[e1, e2]`. -/
def treeQ5 : XpathTree := fun _ => .ok [.elem e1, .elem e2]

/-- Environment where the CSS and XPath queries match the same elements. -/
def envC5 : Env :=
  { buildSoup := .ok cssQ5
    buildTree := .ok treeQ5
    finditer := fun _ => .error "unused" }

/-- The CSS side of the matched-pair scenario. -/
def dCss5 : SelectorDefinition := ⟨.CSS, "p", false, some true⟩

/-- The XPath side of the matched-pair scenario. -/
def dXp5 : SelectorDefinition := ⟨.XPATH, "//p", false, some true⟩

/-- A `soup.select` matching only `[e2]`. -/
def cssQ5w : CssSoup := fun _ => .ok [e2]

/-- An `xpath` matching only `[e2]`. -/
def treeQ5w : XpathTree := fun _ => .ok [.elem e2]

/-- A state in which both trees are already memoized. -/
def stw5 : LoopState :=
  { soup := some cssQ5w, html_tree := some treeQ5w, cssBuilds := 1, xpathBuilds := 1 }

/-- A CSS selector with `get_all = false` used against the failing builds. -/
def dCssX : SelectorDefinition := ⟨.CSS, "#x", false, none⟩

-- Helper lemmas.

theorem dropWhile_eq_self_of_head {α : Type} (p : α → Bool) (l : List α)
    (h : ∀ c, l.head? = some c → p c = false) : l.dropWhile p = l := by
  cases l with
  | nil => rfl
  | cons a t =>
      rw [List.dropWhile_cons]
      simp [h a rfl]

theorem stripChars_eq_self (l : List Char)
    (h1 : ∀ c, l.head? = some c → c.isWhitespace = false)
    (h2 : ∀ c, l.getLast? = some c → c.isWhitespace = false) :
    stripChars l = l := by
  unfold stripChars
  rw [dropWhile_eq_self_of_head _ l h1]
  rw [dropWhile_eq_self_of_head _ l.reverse
    (fun c hc => h2 c (by rwa [List.head?_reverse] at hc))]
  exact List.reverse_reverse l

theorem serializeNode_elem_data (tag : String) (attrs : List (String × String))
    (children : NodeList) :
    ∃ m : List Char,
      (serializeNode (HtmlNode.elem tag attrs children)).data = '<' :: (m ++ ['>']) := by
  refine ⟨tag.data ++ (serializeAttrs attrs).data ++ '>' :: (serializeList children).data
    ++ '<' :: '/' :: tag.data, ?_⟩
  simp [serializeNode, String.data_append, show ("<" : String).data = ['<'] from rfl,
    show (">" : String).data = ['>'] from rfl,
    show ("</" : String).data = ['<', '/'] from rfl]

theorem pstrip_serializeNode_of_isElem (n : HtmlNode) (h : n.isElem = true) :
    pstrip (serializeNode n) = serializeNode n := by
  cases n with
  | text s => simp [HtmlNode.isElem] at h
  | elem tag attrs children =>
      obtain ⟨m, hm⟩ := serializeNode_elem_data tag attrs children
      show String.mk (stripChars (serializeNode (HtmlNode.elem tag attrs children)).data)
        = serializeNode (HtmlNode.elem tag attrs children)
      rw [hm, stripChars_eq_self]
      · rw [← hm]
      · intro c hc
        simp only [List.head?_cons, Option.some.injEq] at hc
        rw [← hc]
        decide
      · intro c hc
        rw [show '<' :: (m ++ ['>']) = ('<' :: m) ++ ['>'] from rfl,
          List.getLast?_concat] at hc
        cases hc
        decide

theorem serializeNode_ne_empty_of_isElem (n : HtmlNode) (h : n.isElem = true) :
    serializeNode n ≠ "" := by
  cases n with
  | text s => simp [HtmlNode.isElem] at h
  | elem tag attrs children =>
      obtain ⟨m, hm⟩ := serializeNode_elem_data tag attrs children
      intro he
      rw [he] at hm
      exact absurd hm (by simp [show ("" : String).data = [] from rfl])

theorem pstrip_serializeNode_ne_empty (n : HtmlNode) (h : n.isElem = true) :
    pstrip (serializeNode n) ≠ "" := by
  rw [pstrip_serializeNode_of_isElem n h]
  exact serializeNode_ne_empty_of_isElem n h

theorem errMsg_ne_empty (e : String) : errMsg e ≠ "" := by
  intro h
  have h2 := congrArg String.length h
  rw [errMsg, String.length_append] at h2
  have h3 : ("Ошибка обработки: " : String).length = 18 := by decide
  have h4 : ("" : String).length = 0 := rfl
  omega


theorem cssCollect_eq_filterMap (eto : Bool) (els : List HtmlNode) :
    cssCollect eto els = els.filterMap (cssExtractOne eto) := by
  induction els with
  | nil => rfl
  | cons e rest ih =>
      simp only [cssCollect, cssExtractOne, List.filterMap_cons]
      cases eto with
      | false => simpa using ih
      | true =>
          simp only [if_true]
          split <;> simpa [*] using ih

theorem cssResults_true (eto : Bool) (els : List HtmlNode) :
    cssResults eto true els = els.filterMap (cssExtractOne eto) := by
  unfold cssResults
  split
  next h =>
    rw [List.isEmpty_iff.mp h]
    rfl
  next h =>
    rw [if_pos rfl, List.take_length, cssCollect_eq_filterMap]

theorem cssResults_false (eto : Bool) (els : List HtmlNode) :
    cssResults eto false els = (els.take 1).filterMap (cssExtractOne eto) := by
  unfold cssResults
  split
  next h =>
    rw [List.isEmpty_iff.mp h]
    rfl
  next h =>
    rw [if_neg (by simp), cssCollect_eq_filterMap]

theorem cssResults_false_length (eto : Bool) (els : List HtmlNode) :
    (cssResults eto false els).length ≤ 1 := by
  rw [cssResults_false]
  calc ((els.take 1).filterMap (cssExtractOne eto)).length
      ≤ (els.take 1).length := List.length_filterMap_le _ _
    _ ≤ 1 := List.length_take_le 1 els

theorem xpathLoop_stop (eto : Bool) (limit : Nat) (els : List XpathItem) (count : Nat)
    (h : limit ≤ count) : xpathLoop eto limit els count = [] := by
  cases els <;> simp [xpathLoop, h]

theorem xpathLoop_all (eto : Bool) (limit : Nat) :
    ∀ (els : List XpathItem) (count : Nat), count + els.length ≤ limit →
      xpathLoop eto limit els count = els.filterMap (xpathExtract eto)
  | [], _, _ => rfl
  | e :: rest, count, h => by
      have hlt : ¬limit ≤ count := by
        simp only [List.length_cons] at h
        omega
      rw [xpathLoop, if_neg hlt]
      cases hx : xpathExtract eto e with
      | some s =>
          dsimp only
          rw [List.filterMap_cons_some hx,
            xpathLoop_all eto limit rest (count + 1) (by simp at h; omega)]
      | none =>
          dsimp only
          rw [List.filterMap_cons_none hx,
            xpathLoop_all eto limit rest count (by simp at h; omega)]

theorem xpathLoop_one (eto : Bool) :
    ∀ els : List XpathItem,
      xpathLoop eto 1 els 0 = (els.filterMap (xpathExtract eto)).take 1
  | [] => rfl
  | e :: rest => by
      rw [xpathLoop, if_neg (by omega)]
      cases hx : xpathExtract eto e with
      | some s =>
          dsimp only
          rw [List.filterMap_cons_some hx, xpathLoop_stop eto 1 rest 1 le_rfl]
          rfl
      | none =>
          dsimp only
          rw [List.filterMap_cons_none hx, xpathLoop_one eto rest]

theorem xpathLoop_length (eto : Bool) (limit : Nat) :
    ∀ (els : List XpathItem) (count : Nat),
      (xpathLoop eto limit els count).length ≤ limit - count
  | [], _ => by simp [xpathLoop]
  | e :: rest, count => by
      rw [xpathLoop]
      split
      next => simp
      next h =>
        cases hx : xpathExtract eto e with
        | some s =>
            dsimp only
            have := xpathLoop_length eto limit rest (count + 1)
            simp only [List.length_cons]
            omega
        | none =>
            dsimp only
            have := xpathLoop_length eto limit rest count
            omega

theorem xpathResults_true (eto : Bool) (els : List XpathItem) :
    xpathResults eto true els = els.filterMap (xpathExtract eto) := by
  unfold xpathResults
  split
  next h =>
    rw [List.isEmpty_iff.mp h]
    rfl
  next h =>
    rw [if_pos rfl]
    exact xpathLoop_all eto els.length els 0 (by omega)

theorem xpathResults_false (eto : Bool) (els : List XpathItem) :
    xpathResults eto false els = (els.filterMap (xpathExtract eto)).take 1 := by
  unfold xpathResults
  split
  next h =>
    rw [List.isEmpty_iff.mp h]
    rfl
  next h =>
    rw [if_neg (by simp)]
    exact xpathLoop_one eto els

theorem xpathResults_false_length (eto : Bool) (els : List XpathItem) :
    (xpathResults eto false els).length ≤ 1 := by
  rw [xpathResults_false]
  exact List.length_take_le 1 _

theorem regexLoop_stop (ms : List RegexMatch) (found : Nat) (h : 1 ≤ found) :
    regexLoop false ms found = [] := by
  cases ms <;> simp [regexLoop, h]

theorem regexLoop_false :
    ∀ (ms : List RegexMatch), regexLoop false ms 0 = (ms.filterMap regexKeep).take 1
  | [] => rfl
  | m :: rest => by
      rw [regexLoop, if_neg (by omega)]
      cases hx : regexExtracted m with
      | some s =>
          dsimp only
          split
          next hc =>
            rw [List.filterMap_cons_none (by simp [regexKeep, hx, hc]),
              regexLoop_false rest]
          next hc =>
            rw [List.filterMap_cons_some
              (show regexKeep m = some (pstrip s) by simp [regexKeep, hx, hc]),
              regexLoop_stop rest 1 le_rfl]
            rfl
      | none =>
          dsimp only
          rw [List.filterMap_cons_none (by simp [regexKeep, hx]),
            regexLoop_false rest]

theorem regexLoop_true :
    ∀ (ms : List RegexMatch) (found : Nat),
      regexLoop true ms found = ms.filterMap regexKeep
  | [], _ => rfl
  | m :: rest, found => by
      rw [regexLoop, if_neg (by simp)]
      cases hx : regexExtracted m with
      | some s =>
          dsimp only
          split
          next hc =>
            rw [List.filterMap_cons_none (by simp [regexKeep, hx, hc]),
              regexLoop_true rest found]
          next hc =>
            rw [List.filterMap_cons_some
              (show regexKeep m = some (pstrip s) by simp [regexKeep, hx, hc]),
              regexLoop_true rest (found + 1)]
      | none =>
          dsimp only
          rw [List.filterMap_cons_none (by simp [regexKeep, hx]),
            regexLoop_true rest found]

theorem regexResults_cases (get_all : Bool) (ms : List RegexMatch) :
    regexResults get_all ms =
      if get_all = true then ms.filterMap regexKeep
      else (ms.filterMap regexKeep).take 1 := by
  cases get_all with
  | false => simpa [regexResults] using regexLoop_false ms
  | true => simpa [regexResults] using regexLoop_true ms 0


theorem runBatchFrom_map_fst (env : Env) (tod : Bool) :
    ∀ (sels : List (String × SelectorDefinition)) (st : LoopState),
      (runBatchFrom env tod st sels).2.map Prod.fst = sels.map Prod.fst
  | [], _ => rfl
  | kd :: rest, st => by
      simp only [runBatchFrom, List.map_cons, List.map]
      rw [runBatchFrom_map_fst env tod rest]

theorem runBatchFrom_length (env : Env) (tod : Bool)
    (sels : List (String × SelectorDefinition)) (st : LoopState) :
    (runBatchFrom env tod st sels).2.length = sels.length := by
  have h := congrArg List.length (runBatchFrom_map_fst env tod sels st)
  simpa using h

theorem runBatchFrom_append (env : Env) (tod : Bool) :
    ∀ (pre post : List (String × SelectorDefinition)) (st : LoopState),
      runBatchFrom env tod st (pre ++ post) =
        ((runBatchFrom env tod (runBatchFrom env tod st pre).1 post).1,
          (runBatchFrom env tod st pre).2 ++
            (runBatchFrom env tod (runBatchFrom env tod st pre).1 post).2)
  | [], post, st => rfl
  | kd :: rest, post, st => by
      simp only [List.cons_append, runBatchFrom, List.append_eq]
      rw [runBatchFrom_append env tod rest post]

theorem evalRaw_fst (env : Env) (st : LoopState) (d : SelectorDefinition) (eto : Bool) :
    (evalRaw env st d eto).1 =
      match d.type with
      | .CSS => (getSoup env st).1
      | .XPATH => (getHtmlTree env st).1
      | .REGEX => st := by
  cases d with
  | mk ty v ga tOnly =>
      cases ty
      · dsimp only [evalRaw]
        rcases h2 : (getSoup env st).2 with e | soup
        · simp [h2]
        · rcases hq : soup v with e | els <;> simp [h2, hq]
      · dsimp only [evalRaw]
        rcases h2 : (getHtmlTree env st).2 with e | tree
        · simp [h2]
        · rcases hq : tree v with e | els <;> simp [h2, hq]
      · dsimp only [evalRaw]
        rcases hf : env.finditer v with e | ms <;> simp [hf]

theorem getSoup_cacheInv (env : Env) (st : LoopState) (h : CacheInv st) :
    CacheInv (getSoup env st).1 := by
  unfold getSoup
  rcases hs : st.soup with _ | s
  · rcases hb : env.buildSoup with e | s
    · exact h
    · refine ⟨fun hx => by simp at hx, ?_, fun hx => h.2.2.1 hx, h.2.2.2⟩
      have h0 : st.cssBuilds = 0 := h.1 hs
      show st.cssBuilds + 1 ≤ 1
      omega
  · exact h

theorem getHtmlTree_cacheInv (env : Env) (st : LoopState) (h : CacheInv st) :
    CacheInv (getHtmlTree env st).1 := by
  unfold getHtmlTree
  rcases hs : st.html_tree with _ | t
  · rcases hb : env.buildTree with e | t
    · exact h
    · refine ⟨fun hx => h.1 hx, h.2.1, fun hx => by simp at hx, ?_⟩
      have h0 : st.xpathBuilds = 0 := h.2.2.1 hs
      show st.xpathBuilds + 1 ≤ 1
      omega
  · exact h

theorem processSelector_cacheInv (env : Env) (tod : Bool) (st : LoopState)
    (d : SelectorDefinition) (h : CacheInv st) :
    CacheInv (processSelector env tod st d).1 := by
  show CacheInv (evalRaw env st d (effectiveTextOnly d tod)).1
  rw [evalRaw_fst]
  cases d.type
  · exact getSoup_cacheInv env st h
  · exact getHtmlTree_cacheInv env st h
  · exact h

theorem runBatchFrom_cacheInv (env : Env) (tod : Bool) :
    ∀ (sels : List (String × SelectorDefinition)) (st : LoopState),
      CacheInv st → CacheInv (runBatchFrom env tod st sels).1
  | [], _, h => h
  | kd :: rest, st, h =>
      runBatchFrom_cacheInv env tod rest _
        (processSelector_cacheInv env tod st kd.2 h)

theorem getSoup_stateOk (env : Env) (st : LoopState) (h : StateOk env st) :
    StateOk env (getSoup env st).1 ∧
      ∀ s, (getSoup env st).2 = .ok s → env.buildSoup = .ok s := by
  unfold getSoup
  rcases hs : st.soup with _ | s
  · rcases hb : env.buildSoup with e | s
    · exact ⟨h, fun s hx => by simp at hx⟩
    · constructor
      · refine ⟨fun s' hx => ?_, fun t hx => h.2 t hx⟩
        injection hx with h2
        subst h2
        first
        | rfl
        | exact hb
      · intro s' hx
        injection hx with h2
        subst h2
        first
        | rfl
        | exact hb
  · refine ⟨h, fun s' hx => ?_⟩
    injection hx with h2
    subst h2
    first
    | rfl
    | exact h.1 s hs

theorem getHtmlTree_stateOk (env : Env) (st : LoopState) (h : StateOk env st) :
    StateOk env (getHtmlTree env st).1 ∧
      ∀ t, (getHtmlTree env st).2 = .ok t → env.buildTree = .ok t := by
  unfold getHtmlTree
  rcases hs : st.html_tree with _ | t
  · rcases hb : env.buildTree with e | t
    · exact ⟨h, fun t hx => by simp at hx⟩
    · constructor
      · refine ⟨fun s' hx => h.1 s' hx, fun t' hx => ?_⟩
        injection hx with h2
        subst h2
        first
        | rfl
        | exact hb
      · intro t' hx
        injection hx with h2
        subst h2
        first
        | rfl
        | exact hb
  · refine ⟨h, fun t' hx => ?_⟩
    injection hx with h2
    subst h2
    first
    | rfl
    | exact h.2 t hs

theorem evalRaw_stateOk (env : Env) (st : LoopState) (d : SelectorDefinition)
    (eto : Bool) (h : StateOk env st) : StateOk env (evalRaw env st d eto).1 := by
  rw [evalRaw_fst]
  cases d.type
  · exact (getSoup_stateOk env st h).1
  · exact (getHtmlTree_stateOk env st h).1
  · exact h


theorem cssCollect_mem_ne_empty (eto : Bool) :
    ∀ (els : List HtmlNode), (∀ n ∈ els, n.isElem = true) →
      ∀ s ∈ cssCollect eto els, s ≠ ""
  | [], _, s, hs => by simp [cssCollect] at hs
  | e :: rest, helem, s, hs => by
      have hrest := cssCollect_mem_ne_empty eto rest
        (fun n hn => helem n (List.mem_cons_of_mem e hn))
      rw [cssCollect] at hs
      cases eto with
      | true =>
          rw [if_pos rfl] at hs
          dsimp only at hs
          by_cases ht : get_text_strip e = ""
          · rw [if_pos ht] at hs
            exact hrest s hs
          · rw [if_neg ht] at hs
            rcases List.mem_cons.mp hs with h1 | h1
            · rw [h1]
              exact ht
            · exact hrest s h1
      | false =>
          rw [if_neg (by simp)] at hs
          rcases List.mem_cons.mp hs with h1 | h1
          · rw [h1]
            exact serializeNode_ne_empty_of_isElem e (helem e (List.mem_cons_self e rest))
          · exact hrest s h1

theorem xpathExtract_ne_empty (eto : Bool) (it : XpathItem)
    (helem : ∀ n, it = XpathItem.elem n → n.isElem = true) :
    ∀ s, xpathExtract eto it = some s → s ≠ "" := by
  intro s hs
  cases it with
  | elem n =>
      have hn := helem n rfl
      rw [xpathExtract] at hs
      cases eto with
      | true =>
          rw [if_pos rfl] at hs
          dsimp only at hs
          split at hs
          · exact absurd hs (by simp)
          next ht =>
            injection hs with h2
            rw [← h2]
            exact ht
      | false =>
          rw [if_neg (by simp)] at hs
          injection hs with h2
          rw [← h2]
          exact pstrip_serializeNode_ne_empty n hn
  | str s0 =>
      rw [xpathExtract] at hs
      split at hs
      · exact absurd hs (by simp)
      next ht =>
        injection hs with h2
        rw [← h2]
        exact ht
  | other s0 =>
      rw [xpathExtract] at hs
      split at hs
      · exact absurd hs (by simp)
      next ht =>
        injection hs with h2
        rw [← h2]
        exact ht

theorem xpathLoop_mem_ne_empty (eto : Bool) (limit : Nat) :
    ∀ (els : List XpathItem) (count : Nat),
      (∀ n, XpathItem.elem n ∈ els → n.isElem = true) →
      ∀ s ∈ xpathLoop eto limit els count, s ≠ ""
  | [], _, _, s, hs => by simp [xpathLoop] at hs
  | e :: rest, count, helem, s, hs => by
      have hrest : ∀ n, XpathItem.elem n ∈ rest → n.isElem = true :=
        fun n hn => helem n (List.mem_cons_of_mem e hn)
      rw [xpathLoop] at hs
      split at hs
      · simp at hs
      · cases hx : xpathExtract eto e with
        | some s0 =>
            rw [hx] at hs
            dsimp only at hs
            rcases List.mem_cons.mp hs with h1 | h1
            · rw [h1]
              exact xpathExtract_ne_empty eto e
                (fun n hn => helem n (hn ▸ List.mem_cons_self e rest)) s0 hx
            · exact xpathLoop_mem_ne_empty eto limit rest (count + 1) hrest s h1
        | none =>
            rw [hx] at hs
            dsimp only at hs
            exact xpathLoop_mem_ne_empty eto limit rest count hrest s hs

theorem regexLoop_mem_ne_empty (get_all : Bool) :
    ∀ (ms : List RegexMatch) (found : Nat),
      ∀ s ∈ regexLoop get_all ms found, s ≠ ""
  | [], _, s, hs => by simp [regexLoop] at hs
  | m :: rest, found, s, hs => by
      rw [regexLoop] at hs
      split at hs
      · simp at hs
      · cases hx : regexExtracted m with
        | some s0 =>
            rw [hx] at hs
            dsimp only at hs
            split at hs
            · exact regexLoop_mem_ne_empty get_all rest found s hs
            next hc =>
              rcases List.mem_cons.mp hs with h1 | h1
              · rw [h1]
                exact hc
              · exact regexLoop_mem_ne_empty get_all rest (found + 1) s h1
        | none =>
            rw [hx] at hs
            dsimp only at hs
            exact regexLoop_mem_ne_empty get_all rest found s hs


theorem cssResults_mem_ne_empty (eto ga : Bool) (els : List HtmlNode)
    (helem : ∀ n ∈ els, n.isElem = true) :
    ∀ s ∈ cssResults eto ga els, s ≠ "" := by
  unfold cssResults
  split
  · simp
  · exact cssCollect_mem_ne_empty eto _
      (fun n hn => helem n (List.mem_of_mem_take hn))

theorem xpathResults_mem_ne_empty (eto ga : Bool) (els : List XpathItem)
    (helem : ∀ n, XpathItem.elem n ∈ els → n.isElem = true) :
    ∀ s ∈ xpathResults eto ga els, s ≠ "" := by
  unfold xpathResults
  split
  · simp
  · exact xpathLoop_mem_ne_empty eto _ els 0 helem

theorem evalRaw_ok_ne_empty (env : Env) (st : LoopState) (d : SelectorDefinition)
    (eto : Bool) (hok : StateOk env st)
    (hcss : ∀ soup, env.buildSoup = .ok soup →
      ∀ q es, soup q = .ok es → ∀ n ∈ es, n.isElem = true)
    (hxp : ∀ tree, env.buildTree = .ok tree →
      ∀ q its, tree q = .ok its → ∀ n, XpathItem.elem n ∈ its → n.isElem = true) :
    ∀ rs, (evalRaw env st d eto).2 = .ok rs → ∀ s ∈ rs, s ≠ "" := by
  intro rs hrs
  cases d with
  | mk ty v ga tOnly =>
      cases ty
      · dsimp only [evalRaw] at hrs
        rcases h2 : (getSoup env st).2 with e | soup <;> rw [h2] at hrs
        · exact absurd hrs (by simp)
        · dsimp only at hrs
          have hb := (getSoup_stateOk env st hok).2 soup h2
          rcases hq : soup v with e | els <;> rw [hq] at hrs
          · exact absurd hrs (by simp)
          · injection hrs with h3
            rw [← h3]
            exact cssResults_mem_ne_empty eto ga els (hcss soup hb v els hq)
      · dsimp only [evalRaw] at hrs
        rcases h2 : (getHtmlTree env st).2 with e | tree <;> rw [h2] at hrs
        · exact absurd hrs (by simp)
        · dsimp only at hrs
          have hb := (getHtmlTree_stateOk env st hok).2 tree h2
          rcases hq : tree v with e | els <;> rw [hq] at hrs
          · exact absurd hrs (by simp)
          · injection hrs with h3
            rw [← h3]
            exact xpathResults_mem_ne_empty eto ga els (hxp tree hb v els hq)
      · dsimp only [evalRaw] at hrs
        rcases hf : env.finditer v with e | ms <;> rw [hf] at hrs
        · exact absurd hrs (by simp)
        · injection hrs with h3
          rw [← h3]
          exact regexLoop_mem_ne_empty ga ms 0

theorem normalize_good (ga : Bool) (ty : SelectorType) (results : List String)
    (h : ∀ s ∈ results, s ≠ "") : GoodVal (normalize ga ty results) := by
  unfold normalize
  split
  next => trivial
  next hne =>
    split
    next hcond =>
      cases results with
      | nil => exact absurd rfl hne
      | cons r t =>
          show r ≠ ""
          exact h r (List.mem_cons_self r t)
    next hcond => exact ⟨hne, h⟩

theorem processSelector_good (env : Env) (tod : Bool) (st : LoopState)
    (d : SelectorDefinition) (hok : StateOk env st)
    (hcss : ∀ soup, env.buildSoup = .ok soup →
      ∀ q es, soup q = .ok es → ∀ n ∈ es, n.isElem = true)
    (hxp : ∀ tree, env.buildTree = .ok tree →
      ∀ q its, tree q = .ok its → ∀ n, XpathItem.elem n ∈ its → n.isElem = true) :
    GoodVal (processSelector env tod st d).2 := by
  show GoodVal (normalize d.get_all d.type
    (resultsOf (evalRaw env st d (effectiveTextOnly d tod)).2))
  apply normalize_good
  cases hres : (evalRaw env st d (effectiveTextOnly d tod)).2 with
  | error e =>
      intro s hs
      rw [resultsOf] at hs
      rcases List.mem_singleton.mp hs with h1
      rw [h1]
      exact errMsg_ne_empty e
  | ok rs => exact evalRaw_ok_ne_empty env st d _ hok hcss hxp rs hres

theorem runBatchFrom_good (env : Env) (tod : Bool)
    (hcss : ∀ soup, env.buildSoup = .ok soup →
      ∀ q es, soup q = .ok es → ∀ n ∈ es, n.isElem = true)
    (hxp : ∀ tree, env.buildTree = .ok tree →
      ∀ q its, tree q = .ok its → ∀ n, XpathItem.elem n ∈ its → n.isElem = true) :
    ∀ (sels : List (String × SelectorDefinition)) (st : LoopState),
      StateOk env st →
      ∀ k v, (k, v) ∈ (runBatchFrom env tod st sels).2 → GoodVal v
  | [], _, _, k, v, hm => by simp [runBatchFrom] at hm
  | kd :: rest, st, hok, k, v, hm => by
      rw [runBatchFrom] at hm
      rcases List.mem_cons.mp hm with h1 | h1
      · have := processSelector_good env tod st kd.2 hok hcss hxp
        rw [show v = (processSelector env tod st kd.2).2 from congrArg Prod.snd h1]
        exact this
      · exact runBatchFrom_good env tod hcss hxp rest
          (processSelector env tod st kd.2).1
          (evalRaw_stateOk env st kd.2 (effectiveTextOnly kd.2 tod) hok) k v h1

theorem cssMarkup_eq_map :
    ∀ els : List HtmlNode, els.filterMap (cssExtractOne false) = els.map serializeNode
  | [] => rfl
  | e :: rest => by
      rw [List.filterMap_cons_some
        (show cssExtractOne false e = some (serializeNode e) from rfl),
        List.map_cons, cssMarkup_eq_map rest]

theorem xpathMarkup_eq_map :
    ∀ els : List HtmlNode, (∀ n ∈ els, n.isElem = true) →
      (els.map XpathItem.elem).filterMap (xpathExtract false) = els.map serializeNode
  | [], _ => rfl
  | e :: rest, helem => by
      rw [List.map_cons, List.filterMap_cons_some
        (show xpathExtract false (XpathItem.elem e) = some (serializeNode e) by
          rw [xpathExtract, if_neg (by simp),
            pstrip_serializeNode_of_isElem e (helem e (List.mem_cons_self e rest))]),
        List.map_cons,
        xpathMarkup_eq_map rest (fun n hn => helem n (List.mem_cons_of_mem e hn))]

theorem cssResults_eq_xpathResults_markup (ga : Bool) (es : List HtmlNode)
    (helem : ∀ n ∈ es, n.isElem = true) :
    cssResults false ga es = xpathResults false ga (es.map XpathItem.elem) := by
  cases ga with
  | true =>
      rw [cssResults_true, xpathResults_true, cssMarkup_eq_map,
        xpathMarkup_eq_map es helem]
  | false =>
      rw [cssResults_false, xpathResults_false, cssMarkup_eq_map,
        xpathMarkup_eq_map es helem, List.map_take]


-- Claim theorems.

/-- C1 (amended): if evaluating one selector raises an error (bad CSS syntax,
bad XPath expression, bad regex pattern, or parse-tree construction failure),
the batch still produces a value for every selector key, in order, and the
failing key's value is the caught error message: the bare scalar message
string when `getAll` is false and the kind is not Regex, and a one-element
list containing the message otherwise. -/
theorem c1_error_isolation (env : Env) (tod : Bool) (st : LoopState)
    (pre post : List (String × SelectorDefinition)) (k : String)
    (d : SelectorDefinition) (e : String)
    (h : (evalRaw env (runBatchFrom env tod st pre).1 d
      (effectiveTextOnly d tod)).2 = .error e) :
    ((runBatchFrom env tod st (pre ++ (k, d) :: post)).2.map Prod.fst
        = (pre ++ (k, d) :: post).map Prod.fst) ∧
    (runBatchFrom env tod st (pre ++ (k, d) :: post)).2[pre.length]?
        = some (k, if d.get_all = false ∧ d.type ≠ SelectorType.REGEX
            then some (Value.scalar (errMsg e))
            else some (Value.list [errMsg e])) := by
  refine ⟨runBatchFrom_map_fst env tod _ st, ?_⟩
  rw [runBatchFrom_append env tod pre ((k, d) :: post) st]
  dsimp only
  rw [List.getElem?_append_right (le_of_eq (runBatchFrom_length env tod pre st)),
    runBatchFrom_length env tod pre st, Nat.sub_self, runBatchFrom]
  dsimp only
  rw [List.getElem?_cons_zero]
  have hps : (processSelector env tod (runBatchFrom env tod st pre).1 d).2
      = normalize d.get_all d.type (resultsOf (evalRaw env
          (runBatchFrom env tod st pre).1 d (effectiveTextOnly d tod)).2) := rfl
  rw [hps, h]
  dsimp only [resultsOf]
  unfold normalize
  rw [if_neg (by simp)]
  by_cases hc : d.get_all = false ∧ d.type ≠ SelectorType.REGEX
  · rw [if_pos ⟨rfl, hc.1, hc.2⟩, if_pos hc]
    rfl
  · rw [if_neg (fun hh => hc ⟨hh.2.1, hh.2.2⟩), if_neg hc]

/-- Witness for C1: a CSS tree whose construction fails, next to a healthy
regex selector. -/
theorem c1_error_isolation_witness :
    ((evalRaw envErr (runBatchFrom envErr true initState []).1 dCssX
        (effectiveTextOnly dCssX true)).2 = .error "boom") ∧
    ((runBatchFrom envErr true initState
        ([] ++ ("a", dCssX) :: [("b", dRegF)])).2.map Prod.fst
        = ([] ++ ("a", dCssX) :: [("b", dRegF)]).map Prod.fst) ∧
    ((runBatchFrom envErr true initState
        ([] ++ ("a", dCssX) :: [("b", dRegF)])).2[([] : List (String × SelectorDefinition)).length]?
        = some ("a", if dCssX.get_all = false ∧ dCssX.type ≠ SelectorType.REGEX
            then some (Value.scalar (errMsg "boom"))
            else some (Value.list [errMsg "boom"]))) := by
  have h := c1_error_isolation envErr true initState [] [("b", dRegF)] "a" dCssX "boom" rfl
  exact ⟨rfl, h.1, h.2⟩

/-- C1 counterexample to the claim as stated: with `get_all = false` and a
non-regex selector, the failing key's value is the scalar error string, not a
one-element list containing it. -/
theorem c1_counterexample :
    (runBatch envErr true [("a", dCssX)]).2
        = [("a", some (Value.scalar (errMsg "boom")))] ∧
    some (Value.scalar (errMsg "boom")) ≠ some (Value.list [errMsg "boom"]) := by
  exact ⟨rfl, by decide⟩

/-- C2: the normalizer maps the empty outcome to null, a singleton outcome
with `getAll` false and non-Regex kind to the bare string, and any other
outcome (several elements, or `getAll` true, or Regex kind — in particular a
Regex selector with exactly one match) to the full ordered list. -/
theorem c2_normalizer_shape (get_all : Bool) (stype : SelectorType)
    (results : List String) :
    (results = [] → normalize get_all stype results = none) ∧
    (∀ s, results = [s] → get_all = false → stype ≠ SelectorType.REGEX →
      normalize get_all stype results = some (Value.scalar s)) ∧
    (results ≠ [] → (1 < results.length ∨ get_all = true ∨ stype = SelectorType.REGEX) →
      normalize get_all stype results = some (Value.list results)) := by
  refine ⟨?_, ?_, ?_⟩
  · intro h
    simp [normalize, h]
  · intro s hs hga ht
    subst hs
    simp [normalize, hga, ht]
  · intro hne hcase
    have hnc : ¬(results.length = 1 ∧ get_all = false ∧ stype ≠ SelectorType.REGEX) := by
      rintro ⟨h1, h2, h3⟩
      rcases hcase with hc | hc | hc
      · omega
      · rw [hc] at h2
        exact Bool.noConfusion h2
      · exact h3 hc
    unfold normalize
    rw [if_neg hne, if_neg hnc]

/-- Witness for C2: a Regex selector with exactly one extracted match keeps
the list shape. -/
theorem c2_normalizer_shape_witness :
    (["x"] : List String) ≠ [] ∧
    (1 < (["x"] : List String).length ∨ false = true ∨
      SelectorType.REGEX = SelectorType.REGEX) ∧
    normalize false SelectorType.REGEX ["x"] = some (Value.list ["x"]) := by
  refine ⟨by simp, Or.inr (Or.inr rfl), ?_⟩
  exact (c2_normalizer_shape false SelectorType.REGEX ["x"]).2.2 (by simp)
    (Or.inr (Or.inr rfl))

/-- C3: for every backend, document and pattern, `getAll = false` extracts at
most one string, and with `getAll = true` the evaluation coincides with the
no-cap all-matches evaluation `allResults`. -/
theorem c3_get_all_limit (env : Env) (st : LoopState) (d : SelectorDefinition)
    (eto : Bool) :
    (d.get_all = false → ∀ rs, (evalRaw env st d eto).2 = .ok rs → rs.length ≤ 1) ∧
    (d.get_all = true → evalRaw env st d eto = allResults env st d eto) := by
  obtain ⟨ty, v, ga, tOnly⟩ := d
  constructor
  · intro hga rs hrs
    dsimp only at hga
    subst hga
    cases ty
    · dsimp only [evalRaw] at hrs
      rcases h2 : (getSoup env st).2 with e | soup <;> rw [h2] at hrs
      · exact absurd hrs (by simp)
      · dsimp only at hrs
        rcases hq : soup v with e | els <;> rw [hq] at hrs
        · exact absurd hrs (by simp)
        · injection hrs with h3
          rw [← h3]
          exact cssResults_false_length eto els
    · dsimp only [evalRaw] at hrs
      rcases h2 : (getHtmlTree env st).2 with e | tree <;> rw [h2] at hrs
      · exact absurd hrs (by simp)
      · dsimp only at hrs
        rcases hq : tree v with e | els <;> rw [hq] at hrs
        · exact absurd hrs (by simp)
        · injection hrs with h3
          rw [← h3]
          exact xpathResults_false_length eto els
    · dsimp only [evalRaw] at hrs
      rcases hf : env.finditer v with e | ms <;> rw [hf] at hrs
      · exact absurd hrs (by simp)
      · injection hrs with h3
        rw [← h3]
        rw [regexResults_cases]
        simp only [Bool.false_eq_true, if_false]
        exact List.length_take_le 1 _
  · intro hga
    dsimp only at hga
    subst hga
    cases ty
    · dsimp only [evalRaw, allResults]
      rcases h2 : (getSoup env st).2 with e | soup
      · rfl
      · dsimp only
        rcases hq : soup v with e | els
        · rfl
        · dsimp only
          rw [cssResults_true]
    · dsimp only [evalRaw, allResults]
      rcases h2 : (getHtmlTree env st).2 with e | tree
      · rfl
      · dsimp only
        rcases hq : tree v with e | els
        · rfl
        · dsimp only
          rw [xpathResults_true]
    · dsimp only [evalRaw, allResults]
      rcases hf : env.finditer v with e | ms
      · rfl
      · dsimp only
        rw [regexResults_cases]
        simp

/-- Witness for C3: a two-match regex document, once with `get_all = false`
(single extracted value) and once with `get_all = true` (all matches). -/
theorem c3_get_all_limit_witness :
    dRegF.get_all = false ∧
    (evalRaw envReg initState dRegF false).2 = .ok ["a"] ∧
    (["a"] : List String).length ≤ 1 ∧
    dRegT.get_all = true ∧
    evalRaw envReg initState dRegT false = allResults envReg initState dRegT false := by
  refine ⟨rfl, rfl, ?_, rfl, ?_⟩
  · exact (c3_get_all_limit envReg initState dRegF false).1 rfl ["a"] rfl
  · exact (c3_get_all_limit envReg initState dRegT false).2 rfl

/-- C4: over any batch, the CSS tree and the XPath tree are each successfully
constructed at most once; later selectors of the same kind reuse the
memoized tree. -/
theorem c4_trees_built_once (env : Env) (tod : Bool)
    (sels : List (String × SelectorDefinition)) :
    (runBatch env tod sels).1.cssBuilds ≤ 1 ∧
    (runBatch env tod sels).1.xpathBuilds ≤ 1 := by
  have h := runBatchFrom_cacheInv env tod sels initState
    ⟨fun _ => rfl, by decide, fun _ => rfl, by decide⟩
  exact ⟨h.2.1, h.2.2.2⟩


/-- C5 counterexample to the claim as stated: a CSS selector and an XPath
selector matching the same element sequence, with equal `getAll = false` and
equal `effectiveTextOnly = true`, produce different extracted lists — CSS
considers only the first match (whose text is empty after trimming), while
XPath scans on to the second match. -/
theorem c5_counterexample :
    cssQ5 dCss5.value = .ok [e1, e2] ∧
    treeQ5 dXp5.value = .ok ([e1, e2].map XpathItem.elem) ∧
    dCss5.get_all = dXp5.get_all ∧
    effectiveTextOnly dCss5 true = effectiveTextOnly dXp5 true ∧
    (evalRaw envC5 initState dCss5 (effectiveTextOnly dCss5 true)).2 = .ok [] ∧
    (evalRaw envC5 initState dXp5 (effectiveTextOnly dXp5 true)).2 = .ok ["x"] ∧
    (Except.ok ([] : List String) : Except String (List String)) ≠ .ok ["x"] := by
  exact ⟨rfl, rfl, rfl, rfl, rfl, rfl, by simp⟩

/-- C5 (amended): with `getAll` true both backends consider every match;
with `getAll` false CSS considers only the first match of the query's result
sequence while XPath scans the sequence until the first kept value; and for
any pair of CSS/XPath selectors that match the same element sequence, with
equal `getAll` and `effectiveTextOnly` false, the two backends produce the
same extracted list (with `effectiveTextOnly` true they can differ). -/
theorem c5_limit_rule (env : Env) (st : LoopState) (d1 d2 : SelectorDefinition)
    (soup : CssSoup) (tree : XpathTree) (es : List HtmlNode)
    (h1 : d1.type = SelectorType.CSS) (h2 : d2.type = SelectorType.XPATH)
    (hga : d1.get_all = d2.get_all)
    (hsoup : st.soup = some soup) (htree : st.html_tree = some tree)
    (hq1 : soup d1.value = .ok es)
    (hq2 : tree d2.value = .ok (es.map XpathItem.elem))
    (helem : ∀ n ∈ es, n.isElem = true) :
    (evalRaw env st d1 false).2 = (evalRaw env st d2 false).2 ∧
    (∀ (eto : Bool) (els : List XpathItem),
      xpathResults eto false els = (els.filterMap (xpathExtract eto)).take 1) ∧
    (∀ (eto : Bool) (els : List HtmlNode),
      cssResults eto false els = (els.take 1).filterMap (cssExtractOne eto)) := by
  refine ⟨?_, xpathResults_false, cssResults_false⟩
  obtain ⟨ty1, v1, ga1, to1⟩ := d1
  obtain ⟨ty2, v2, ga2, to2⟩ := d2
  dsimp only at h1 h2 hga hq1 hq2
  subst h1
  subst h2
  subst hga
  have hgs : getSoup env st = (st, .ok soup) := by
    unfold getSoup
    rw [hsoup]
  have hgt : getHtmlTree env st = (st, .ok tree) := by
    unfold getHtmlTree
    rw [htree]
  dsimp only [evalRaw]
  rw [hgs, hgt]
  dsimp only
  rw [hq1, hq2]
  dsimp only
  rw [cssResults_eq_xpathResults_markup ga1 es helem]

/-- Witness for C5: a memoized pair of trees answering the same single
element, queried in markup mode by both backends. -/
theorem c5_limit_rule_witness :
    stw5.soup = some cssQ5w ∧
    stw5.html_tree = some treeQ5w ∧
    cssQ5w "q" = .ok [e2] ∧
    treeQ5w "q" = .ok ([e2].map XpathItem.elem) ∧
    (evalRaw envErr stw5 ⟨SelectorType.CSS, "q", false, some false⟩ false).2
      = (evalRaw envErr stw5 ⟨SelectorType.XPATH, "q", false, some false⟩ false).2 := by
  refine ⟨rfl, rfl, rfl, rfl, ?_⟩
  exact (c5_limit_rule envErr stw5 ⟨SelectorType.CSS, "q", false, some false⟩
    ⟨SelectorType.XPATH, "q", false, some false⟩ cssQ5w treeQ5w [e2]
    rfl rfl rfl rfl rfl rfl rfl (by decide)).1

/-- C6 counterexample to the claim as stated: on the document
`<div id="t">Hello <b>World</b></div>`, the CSS selector `#t` with `getAll`
false and `effectiveTextOnly` true yields `"HelloWorld"` (bs4
`get_text(strip=True)` joins the stripped text pieces with no separator),
not `"Hello World"`. -/
theorem c6_counterexample :
    (runBatch envC6 true [("t", ⟨SelectorType.CSS, "#t", false, some true⟩)]).2
        = [("t", some (Value.scalar "HelloWorld"))] ∧
    ("HelloWorld" : String) ≠ "Hello World" := by
  exact ⟨rfl, by decide⟩

/-- C6 (amended): the scenario selector with `text_only` true yields the
scalar `"HelloWorld"`, and with `text_only` false yields the full serialized
markup of the matched element. -/
theorem c6_concrete_scenario :
    (runBatch envC6 true [("t", ⟨SelectorType.CSS, "#t", false, some true⟩)]).2
        = [("t", some (Value.scalar "HelloWorld"))] ∧
    (runBatch envC6 true [("t", ⟨SelectorType.CSS, "#t", false, some false⟩)]).2
        = [("t", some (Value.scalar "<div id=\x22t\x22>Hello <b>World</b></div>"))] := by
  exact ⟨rfl, rfl⟩

/-- C7: `final_url` is non-null exactly when the resolved URL differs from
the requested URL, and `redirect_location` is non-null only when redirects
were not followed and the final status is in `[300, 400)`. -/
theorem c7_response_metadata (initial_url : String) (status : Nat)
    (response_url : String) (location_header : Option String)
    (opts : ParseOptions) (env : Env) (html_text : String)
    (selectors : List (String × SelectorDefinition)) :
    ((buildResponse initial_url status response_url location_header opts env
        html_text selectors).final_url.isSome ↔ response_url ≠ initial_url) ∧
    ((buildResponse initial_url status response_url location_header opts env
        html_text selectors).redirect_location.isSome →
      opts.follow_redirects = false ∧ 300 ≤ status ∧ status < 400) := by
  constructor
  · show (finalUrlOf initial_url response_url).isSome ↔ _
    unfold finalUrlOf
    split
    next h => simp [h]
    next h => simp [h]
  · show (redirectLocationOf opts.follow_redirects status location_header).isSome → _
    unfold redirectLocationOf
    split
    next h => exact fun _ => h
    next h =>
      intro hx
      simp at hx

/-- Witness for C7: a 301 stop with redirects off and a changed URL. -/
theorem c7_response_metadata_witness :
    (("http://b/" : String) ≠ "http://a/") ∧
    (buildResponse "http://a/" 301 "http://b/" (some "http://c/")
      ⟨true, false⟩ envErr "" []).final_url.isSome = true ∧
    (buildResponse "http://a/" 301 "http://b/" (some "http://c/")
      ⟨true, false⟩ envErr "" []).redirect_location.isSome = true ∧
    ((⟨true, false⟩ : ParseOptions).follow_redirects = false ∧
      300 ≤ 301 ∧ 301 < 400) := by
  have h := c7_response_metadata "http://a/" 301 "http://b/" (some "http://c/")
    ⟨true, false⟩ envErr "" []
  exact ⟨by decide, h.1.mpr (by decide), rfl, h.2 rfl⟩

/-- C8: a Regex selector never touches the parse trees (the cache state is
returned unchanged and the outcome is independent of it); matching runs over
`re.finditer` on the decoded text; `getAll` false keeps only the first kept
match and `getAll` true keeps them all, where a match's kept value prefers
group 1, falls back to the whole match, is trimmed, and is dropped when
empty (`regexKeep`). -/
theorem c8_regex_semantics (env : Env) (st : LoopState) (d : SelectorDefinition)
    (eto : Bool) (h : d.type = SelectorType.REGEX) :
    (evalRaw env st d eto).1 = st ∧
    (∀ st', (evalRaw env st d eto).2 = (evalRaw env st' d eto).2) ∧
    (∀ e, env.finditer d.value = .error e → (evalRaw env st d eto).2 = .error e) ∧
    (∀ ms, env.finditer d.value = .ok ms →
      (evalRaw env st d eto).2 =
        .ok (if d.get_all = true then ms.filterMap regexKeep
             else (ms.filterMap regexKeep).take 1)) := by
  obtain ⟨ty, v, ga, tOnly⟩ := d
  dsimp only at h
  subst h
  refine ⟨?_, ?_, ?_, ?_⟩
  · dsimp only [evalRaw]
    rcases hf : env.finditer v with e | ms <;> rfl
  · intro st'
    dsimp only [evalRaw]
    rcases hf : env.finditer v with e | ms <;> rfl
  · intro e hf
    dsimp only [evalRaw]
    rw [hf]
  · intro ms hf
    dsimp only [evalRaw]
    rw [hf]
    dsimp only
    rw [regexResults_cases]

/-- Witness for C8: the two-match environment with `get_all = true`. -/
theorem c8_regex_semantics_witness :
    dRegT.type = SelectorType.REGEX ∧
    envReg.finditer dRegT.value = .ok [⟨"a", none⟩, ⟨"b", none⟩] ∧
    (evalRaw envReg initState dRegT false).2 =
      .ok (if dRegT.get_all = true
        then List.filterMap regexKeep [⟨"a", none⟩, ⟨"b", none⟩]
        else (List.filterMap regexKeep [⟨"a", none⟩, ⟨"b", none⟩]).take 1) := by
  exact ⟨rfl, rfl,
    (c8_regex_semantics envReg initState dRegT false rfl).2.2.2
      [⟨"a", none⟩, ⟨"b", none⟩] rfl⟩

/-- C9: when the backends return genuine element nodes (as bs4 `select` and
lxml `HtmlElement` results do), every value of the result mapping is null, a
non-empty scalar string, or a non-empty list of non-empty strings —
error-message entries included. -/
theorem c9_value_wellformed (env : Env) (tod : Bool)
    (sels : List (String × SelectorDefinition))
    (hcss : ∀ soup, env.buildSoup = .ok soup →
      ∀ q es, soup q = .ok es → ∀ n ∈ es, n.isElem = true)
    (hxp : ∀ tree, env.buildTree = .ok tree →
      ∀ q its, tree q = .ok its → ∀ n, XpathItem.elem n ∈ its → n.isElem = true) :
    ∀ k v, (k, v) ∈ (runBatch env tod sels).2 → GoodVal v :=
  runBatchFrom_good env tod hcss hxp sels initState
    ⟨fun _ hx => Option.noConfusion hx, fun _ hx => Option.noConfusion hx⟩

/-- Witness for C9: the concrete scenario batch yields a non-empty scalar. -/
theorem c9_value_wellformed_witness : GoodVal (some (Value.scalar "HelloWorld")) := by
  have hcss : ∀ soup, envC6.buildSoup = .ok soup →
      ∀ q es, soup q = .ok es → ∀ n ∈ es, n.isElem = true := by
    intro soup hsoup q es hq n hn
    injection hsoup with hs
    rw [← hs] at hq
    simp only [cssQ6] at hq
    split at hq
    · injection hq with he
      rw [← he] at hn
      rw [List.mem_singleton.mp hn]
      rfl
    · injection hq with he
      rw [← he] at hn
      simp at hn
  have hxp : ∀ tree, envC6.buildTree = .ok tree →
      ∀ q its, tree q = .ok its →
        ∀ n, XpathItem.elem n ∈ its → n.isElem = true :=
    fun tree ht => Except.noConfusion ht
  have hmem : ("t", some (Value.scalar "HelloWorld"))
      ∈ (runBatch envC6 true [("t", ⟨SelectorType.CSS, "#t", false, some true⟩)]).2 := by
    rw [show (runBatch envC6 true
      [("t", (⟨SelectorType.CSS, "#t", false, some true⟩ : SelectorDefinition))]).2
      = [("t", some (Value.scalar "HelloWorld"))] from rfl]
    exact List.mem_singleton.mpr rfl
  exact c9_value_wellformed envC6 true _ hcss hxp "t" _ hmem

/-- C10: when the decoded body is the empty string, no selector is evaluated
and the returned data mapping is empty, whatever the status code, options and
selector map. -/
theorem c10_empty_document (env : Env) (status : Nat) (opts : ParseOptions)
    (sels : List (String × SelectorDefinition)) :
    parsePhase env "" status opts sels = [] := by
  unfold parsePhase
  rw [if_neg]
  rintro ⟨-, h⟩
  exact h rfl

end ParserService
